import Mathlib

/-!
Verification of the engine lifecycle contract of physicalist/residualvm,
shallowly embedding `engines/engine.h` (the abstract `Engine` base class:
pause nesting, feature queries, save/load gating, quit signalling).

The header gives inline bodies for `isPaused` and the default `hasFeature`;
those definitions below are translated from that source.  The remaining
method bodies live in `engines/engine.cpp`, which is not part of this
excerpt; the corresponding definitions are modelled from the specification
and say so in their doc comments.
-/

namespace ResidualVM

/-- The subset of `Common::Error` codes this contract mentions: success and
the failure code returned by the default (unoverridden) save/load hooks. -/
inductive Error where
  | kNoError
  | kUnsupportedFeature
  deriving DecidableEq, Repr

/-- `Engine::EngineFeature` from engines/engine.h lines 75-104: the fixed
enumerated set of engine capabilities. -/
inductive EngineFeature where
  | kSupportsSubtitleOptions
  | kSupportsRTL
  | kSupportsLoadingDuringRuntime
  | kSupportsSavingDuringRuntime
  deriving DecidableEq, Repr

/-- The `Engine` base-class state from engines/engine.h lines 44-65.
The handles (`OSystem*`, `Audio::Mixer*`, `Common::TimerManager*`,
`Common::EventManager*`, `Common::SaveFileManager*`) are non-owning
pointers to external collaborators; only their identity matters to the
claims, so each is embedded as an opaque `Nat` identifier.
`_targetName` is a `Common::String` and `_gameDataDir` a `Common::FSNode`
reference, again reduced to its identity.  `_pauseLevel` is the C++ `int`
pause-nesting counter, embedded as `Int`. -/
structure Engine where
  _system : Nat
  _mixer : Nat
  _timer : Nat
  _eventMan : Nat
  _saveFileMan : Nat
  _targetName : String
  _gameDataDir : Nat
  _pauseLevel : Int
  deriving DecidableEq, Repr

/-- `Engine::isPaused` from engines/engine.h line 198:
`bool isPaused() const { return _pauseLevel != 0; }`. -/
def Engine.isPaused (e : Engine) : Bool :=
  e._pauseLevel != 0

/-- `Engine::hasFeature` default implementation from engines/engine.h
line 126: `virtual bool hasFeature(EngineFeature f) const { return false; }`.
It is a `const` method: it takes the engine state and a flag and returns a
`Bool`, touching nothing. -/
def Engine.hasFeature (_e : Engine) (_f : EngineFeature) : Bool :=
  false

/-- Modelled from the spec: the body of the constructor `Engine(OSystem*)`
lives in engines/engine.cpp, which is absent from this excerpt.  Per the
spec, the handles, the target name and the game-data directory are set at
construction and the pause depth is implicitly reset to 0. -/
def mkEngine (sys mixer timer eventMan saveFileMan : Nat)
    (target : String) (dataDir : Nat) : Engine :=
  ⟨sys, mixer, timer, eventMan, saveFileMan, target, dataDir, 0⟩

/-- Modelled from the spec: the body of the base-class virtual hook
`Engine::pauseEngineIntern` lives in engines/engine.cpp, absent from this
excerpt.  The spec describes the base implementation as a no-op that
concrete engines override; the no-op leaves the engine unchanged. -/
def Engine.pauseEngineIntern (e : Engine) (_pause : Bool) : Engine :=
  e

/-- Modelled from the spec: the body of `Engine::pauseEngine` lives in
engines/engine.cpp, absent from this excerpt; engines/engine.h lines
182-193 declare it.  Per the spec it increments the pause depth when
`pause` is true and decrements it when false; calling it with
`pause = false` at depth 0 is a programming error that fails fast
(embedded as `none`); it invokes the virtual hook `pauseEngineIntern true`
exactly on the 0 to 1 depth transition and `pauseEngineIntern false`
exactly on the 1 to 0 transition.  The hook invocations are recorded as
the returned list of hook arguments, in call order. -/
def Engine.pauseEngine (e : Engine) (pause : Bool) : Option (Engine × List Bool) :=
  if pause then
    let e2 : Engine := { e with _pauseLevel := e._pauseLevel + 1 }
    some (e2, if e2._pauseLevel = 1 then [true] else [])
  else
    if e._pauseLevel = 0 then
      none
    else
      let e2 : Engine := { e with _pauseLevel := e._pauseLevel - 1 }
      some (e2, if e2._pauseLevel = 0 then [false] else [])

/-- Runs a sequence of `pauseEngine` calls, threading the engine state and
concatenating the hook invocations each call makes; fails if any single
call fails its precondition. -/
def Engine.runPauses (e : Engine) : List Bool → Option (Engine × List Bool)
  | [] => some (e, [])
  | p :: ps =>
    (e.pauseEngine p).bind fun r =>
      (r.1.runPauses ps).bind fun s => some (s.1, r.2 ++ s.2)

/-- The net pause count of a call sequence: +1 for each `pauseEngine true`,
-1 for each `pauseEngine false`. -/
def netCount : List Bool → Int
  | [] => 0
  | p :: ps => (if p then 1 else -1) + netCount ps

/-- Whether a call sequence, started at depth `d`, never decrements the
pause depth below 0 (the side condition of the nesting claim). -/
def neverBelowZero (d : Int) : List Bool → Bool
  | [] => true
  | p :: ps =>
    if p then neverBelowZero (d + 1) ps
    else if d = 0 then false else neverBelowZero (d - 1) ps

/-- The hook invocations the spec demands for a call sequence started at
depth `d`: `true` exactly at each 0 to 1 depth transition, `false` exactly
at each 1 to 0 depth transition, nothing for transitions among positive
depths. -/
def hookSpec (d : Int) : List Bool → List Bool
  | [] => []
  | p :: ps =>
    if p then
      (if d = 0 then [true] else []) ++ hookSpec (d + 1) ps
    else
      (if d = 1 then [false] else []) ++ hookSpec (d - 1) ps

/-- The engine state after a single `pauseEngine` call, viewed as a total
function: on an assertion failure the engine is unchanged (the process
dies before mutating anything). -/
def Engine.pauseEngineState (e : Engine) (pause : Bool) : Engine :=
  match e.pauseEngine pause with
  | some (e2, _) => e2
  | none => e

/-- Modelled from the spec: the body of the default
`Engine::canLoadGameStateCurrently` lives in engines/engine.cpp, absent
from this excerpt.  Per the spec the default returns false; it is a pure
query. -/
def Engine.canLoadGameStateCurrently (_e : Engine) : Bool :=
  false

/-- Modelled from the spec: the body of the default `Engine::loadGameState`
lives in engines/engine.cpp, absent from this excerpt.  Per the spec the
default fails with `UnsupportedFeature`, leaving the engine unchanged. -/
def Engine.loadGameState (e : Engine) (_slot : Int) : Engine × Error :=
  (e, Error.kUnsupportedFeature)

/-- Modelled from the spec: the body of the default
`Engine::canSaveGameStateCurrently` lives in engines/engine.cpp, absent
from this excerpt.  Per the spec the default returns false; it is a pure
query. -/
def Engine.canSaveGameStateCurrently (_e : Engine) : Bool :=
  false

/-- Modelled from the spec: the body of the default `Engine::saveGameState`
lives in engines/engine.cpp, absent from this excerpt.  Per the spec the
default fails with `UnsupportedFeature`, leaving the engine unchanged. -/
def Engine.saveGameState (e : Engine) (_slot : Int) (_desc : String) : Engine × Error :=
  (e, Error.kUnsupportedFeature)

/-- Modelled from the spec: the body of the default
`Engine::syncSoundSettings` lives in engines/engine.cpp, absent from this
excerpt.  Per the spec the default is a no-op on the engine state (it only
re-applies global configuration to the borrowed audio handles). -/
def Engine.syncSoundSettings (e : Engine) : Engine :=
  e

/-- An event the lifecycle contract knows about: engines/engine.h line 177
documents that `quitGame` sends an `EVENT_QUIT` event. -/
inductive GameEvent where
  | eventQuit
  deriving DecidableEq, Repr

/-- The world visible to the static `Engine::quitGame`: the current engine
instance and the shared event stream of the Event Manager. -/
structure World where
  engine : Engine
  eventQueue : List GameEvent
  deriving DecidableEq, Repr

/-- Modelled from the spec: the body of the static `Engine::quitGame` lives
in engines/engine.cpp, absent from this excerpt; engines/engine.h lines
176-180 declare it and document that it sends an `EVENT_QUIT` event to the
Event Manager.  Per the spec it only signals the quit condition into the
shared event stream and does not terminate the process or touch any engine
instance. -/
def quitGame (w : World) : World :=
  { w with eventQueue := w.eventQueue ++ [GameEvent.eventQuit] }

/-- Modelled from the spec: the body of `Engine::shouldPerformAutoSave`
lives in engines/engine.cpp, absent from this excerpt; engines/engine.h
line 207 declares it.  Per the spec it is a pure function of the elapsed
time since `lastSaveTime` against the configured autosave interval,
returning true exactly when time beyond the interval has elapsed; in the
C++ the current time comes from the system clock and the interval from the
configuration, both embedded here as explicit arguments. -/
def Engine.shouldPerformAutoSave (_e : Engine) (now lastSaveTime interval : Int) : Bool :=
  now - lastSaveTime > interval

example : (mkEngine 0 0 0 0 0 "grim" 0).runPauses [true, true, true, false, false, false]
    = some (mkEngine 0 0 0 0 0 "grim" 0, [true, false]) := by decide

example : hookSpec 0 [true, true, true, false, false, false] = [true, false] := by decide

example : (mkEngine 0 0 0 0 0 "grim" 0).pauseEngine false = none := by decide

/-- Characterization of a successful `pauseEngine` call: the result differs
from the input only in the pause level, which moves by one in the direction
of the argument, and a successful resume implies the level was nonzero. -/
theorem pauseEngine_some (e e2 : Engine) (p : Bool) (hk : List Bool)
    (h : e.pauseEngine p = some (e2, hk)) :
    e2 = { e with _pauseLevel := if p then e._pauseLevel + 1 else e._pauseLevel - 1 } ∧
    (p = false → e._pauseLevel ≠ 0) := by
  cases p with
  | true =>
    have hstep : e.pauseEngine true =
        some ({ e with _pauseLevel := e._pauseLevel + 1 },
          if e._pauseLevel + 1 = 1 then [true] else []) := by
      simp [Engine.pauseEngine]
    rw [hstep, Option.some.injEq, Prod.mk.injEq] at h
    refine ⟨?_, by simp⟩
    rw [← h.1]
    simp
  | false =>
    by_cases h0 : e._pauseLevel = 0
    · have hnone : e.pauseEngine false = none := by
        simp [Engine.pauseEngine, h0]
      rw [hnone] at h
      cases h
    · have hstep : e.pauseEngine false =
          some ({ e with _pauseLevel := e._pauseLevel - 1 },
            if e._pauseLevel - 1 = 0 then [false] else []) := by
        simp [Engine.pauseEngine, h0]
      rw [hstep, Option.some.injEq, Prod.mk.injEq] at h
      refine ⟨?_, fun _ => h0⟩
      rw [← h.1]
      simp

/-- A `pauseEngine` call that moves between two positive depths makes no
hook invocation. -/
theorem pauseEngine_positive_no_hook (a a2 : Engine) (p : Bool) (hk : List Bool)
    (h : a.pauseEngine p = some (a2, hk)) (h1 : 0 < a._pauseLevel)
    (h2 : 0 < a2._pauseLevel) : hk = [] := by
  have hch := pauseEngine_some a a2 p hk h
  cases p with
  | true =>
    have hstep : a.pauseEngine true =
        some ({ a with _pauseLevel := a._pauseLevel + 1 },
          if a._pauseLevel + 1 = 1 then [true] else []) := by
      simp [Engine.pauseEngine]
    rw [hstep, Option.some.injEq, Prod.mk.injEq] at h
    rw [← h.2, if_neg (by omega)]
  | false =>
    have hne0 : a._pauseLevel ≠ 0 := hch.2 rfl
    have hstep : a.pauseEngine false =
        some ({ a with _pauseLevel := a._pauseLevel - 1 },
          if a._pauseLevel - 1 = 0 then [false] else []) := by
      simp [Engine.pauseEngine, hne0]
    rw [hstep, Option.some.injEq, Prod.mk.injEq] at h
    have hlvl : a2._pauseLevel = a._pauseLevel - 1 := by
      rw [hch.1]
      simp
    rw [← h.2, if_neg (by omega)]

/-- Main pause-sequence lemma: from any state of nonnegative depth `d`, a
call sequence that never decrements below 0 succeeds, lands on depth
`d + netCount ps`, changes nothing else, and makes exactly the hook
invocations `hookSpec d ps`. -/
theorem runPauses_eq (ps : List Bool) : ∀ (e : Engine) (d : Int),
    e._pauseLevel = d → 0 ≤ d → neverBelowZero d ps = true →
    e.runPauses ps =
      some ({ e with _pauseLevel := d + netCount ps }, hookSpec d ps) := by
  induction ps with
  | nil =>
    intro e d hd _ _
    subst hd
    simp [Engine.runPauses, netCount, hookSpec]
  | cons p ps ih =>
    intro e d hd h0 hb
    subst hd
    cases p with
    | true =>
      have hstep : e.pauseEngine true =
          some ({ e with _pauseLevel := e._pauseLevel + 1 },
            if e._pauseLevel + 1 = 1 then [true] else []) := by
        simp [Engine.pauseEngine]
      have hb2 : neverBelowZero (e._pauseLevel + 1) ps = true := by
        simpa [neverBelowZero] using hb
      have htail := ih ({ e with _pauseLevel := e._pauseLevel + 1 }) (e._pauseLevel + 1)
        rfl (by omega) hb2
      have h1 : netCount (true :: ps) = 1 + netCount ps := by simp [netCount]
      have hnc : e._pauseLevel + netCount (true :: ps) = e._pauseLevel + 1 + netCount ps := by
        rw [h1]
        ring
      have hhs : hookSpec e._pauseLevel (true :: ps)
          = (if e._pauseLevel + 1 = 1 then [true] else []) ++ hookSpec (e._pauseLevel + 1) ps := by
        have hiff : (e._pauseLevel = 0) ↔ (e._pauseLevel + 1 = 1) := by omega
        by_cases hz : e._pauseLevel = 0
        · rw [if_pos (hiff.mp hz)]
          simp [hookSpec, hz]
        · rw [if_neg (fun hc => hz (hiff.mpr hc))]
          simp [hookSpec, hz]
      simp only [Engine.runPauses, hstep, Option.some_bind, htail]
      rw [hnc, hhs]
    | false =>
      by_cases hz : e._pauseLevel = 0
      · simp [neverBelowZero, hz] at hb
      · have hstep : e.pauseEngine false =
            some ({ e with _pauseLevel := e._pauseLevel - 1 },
              if e._pauseLevel - 1 = 0 then [false] else []) := by
          simp [Engine.pauseEngine, hz]
        have hb2 : neverBelowZero (e._pauseLevel - 1) ps = true := by
          simpa [neverBelowZero, hz] using hb
        have htail := ih ({ e with _pauseLevel := e._pauseLevel - 1 }) (e._pauseLevel - 1)
          rfl (by omega) hb2
        have h1 : netCount (false :: ps) = -1 + netCount ps := by simp [netCount]
        have hnc : e._pauseLevel + netCount (false :: ps) = e._pauseLevel - 1 + netCount ps := by
          rw [h1]
          ring
        have hhs : hookSpec e._pauseLevel (false :: ps)
            = (if e._pauseLevel - 1 = 0 then [false] else [])
              ++ hookSpec (e._pauseLevel - 1) ps := by
          have hiff : (e._pauseLevel = 1) ↔ (e._pauseLevel - 1 = 0) := by omega
          by_cases hone : e._pauseLevel = 1
          · rw [if_pos (hiff.mp hone)]
            simp [hookSpec, hone]
          · rw [if_neg (fun hc => hone (hiff.mpr hc))]
            simp [hookSpec, hone]
        simp only [Engine.runPauses, hstep, Option.some_bind, htail]
        rw [hnc, hhs]

/-- Every state reachable by successful `pauseEngine` calls from a state of
nonnegative pause depth again has nonnegative pause depth. -/
theorem runPauses_nonneg (ps : List Bool) : ∀ (e e2 : Engine) (hooks : List Bool),
    0 ≤ e._pauseLevel → e.runPauses ps = some (e2, hooks) → 0 ≤ e2._pauseLevel := by
  induction ps with
  | nil =>
    intro e e2 hooks h0 h
    simp [Engine.runPauses] at h
    rw [← h.1]
    exact h0
  | cons p ps ih =>
    intro e e2 hooks h0 h
    cases hp : e.pauseEngine p with
    | none =>
      simp only [Engine.runPauses, hp, Option.none_bind] at h
      cases h
    | some r =>
      obtain ⟨e1, hk⟩ := r
      have hch := pauseEngine_some e e1 p hk hp
      have hlvl : e1._pauseLevel = if p then e._pauseLevel + 1 else e._pauseLevel - 1 := by
        rw [hch.1]
      have h1 : 0 ≤ e1._pauseLevel := by
        cases p with
        | true =>
          simp at hlvl
          omega
        | false =>
          have hne := hch.2 rfl
          simp at hlvl
          omega
      simp only [Engine.runPauses, hp, Option.some_bind] at h
      cases hq : e1.runPauses ps with
      | none =>
        rw [hq] at h
        cases h
      | some s =>
        obtain ⟨e3, hs⟩ := s
        rw [hq] at h
        simp only [Option.some_bind, Option.some.injEq, Prod.mk.injEq] at h
        rw [← h.1]
        exact ih e1 e3 hs h1 hq

/-- C1: for every sequence of `pauseEngine(true)` / `pauseEngine(false)`
calls from a running engine (depth 0) that never decrements the depth below
0, the run succeeds; `isPaused` on the final state returns true exactly
when the net pause count is nonzero; the `pauseEngineIntern` hook is
invoked with true exactly once at each 0 to 1 depth transition and with
false exactly once at each 1 to 0 transition (the invocation list equals
`hookSpec`); and any single call moving between two positive depths makes
no hook invocation. -/
theorem pause_nesting_contract (e : Engine) (ps : List Bool)
    (h0 : e._pauseLevel = 0) (hb : neverBelowZero 0 ps = true) :
    e.runPauses ps = some ({ e with _pauseLevel := netCount ps }, hookSpec 0 ps) ∧
    (({ e with _pauseLevel := netCount ps } : Engine).isPaused = true ↔ netCount ps ≠ 0) ∧
    (∀ (a a2 : Engine) (q : Bool) (hk : List Bool),
      a.pauseEngine q = some (a2, hk) →
      0 < a._pauseLevel → 0 < a2._pauseLevel → hk = []) := by
  refine ⟨?_, ?_, pauseEngine_positive_no_hook⟩
  · have hrun := runPauses_eq ps e 0 h0 le_rfl hb
    simpa using hrun
  · simp [Engine.isPaused, bne_iff_ne]

/-- Closed witness for the nesting contract: pause three times then resume
three times on a concrete fresh engine — the run succeeds, ends at depth 0,
and the hook fires exactly twice, at the first pause and the final
resume. -/
theorem pause_nesting_contract_witness :
    neverBelowZero 0 [true, true, true, false, false, false] = true ∧
    (mkEngine 1 2 3 4 5 "grim" 6).runPauses [true, true, true, false, false, false]
      = some ({ mkEngine 1 2 3 4 5 "grim" 6 with
          _pauseLevel := netCount [true, true, true, false, false, false] },
        hookSpec 0 [true, true, true, false, false, false]) :=
  ⟨by decide,
    (pause_nesting_contract (mkEngine 1 2 3 4 5 "grim" 6)
      [true, true, true, false, false, false] rfl (by decide)).1⟩

/-- C2: the pause depth is never negative in any reachable state: a
`pauseEngine(false)` call at depth 0 (when `isPaused()` is false) is
rejected by the fail-fast assertion rather than silently decrementing, and
every state reachable from construction by successful `pauseEngine` calls
has nonnegative depth. -/
theorem pause_depth_never_negative (sys mixer timer eventMan saveFileMan : Nat)
    (target : String) (dataDir : Nat) :
    (∀ e : Engine, e.isPaused = false → e.pauseEngine false = none) ∧
    (∀ (ps : List Bool) (e2 : Engine) (hooks : List Bool),
      (mkEngine sys mixer timer eventMan saveFileMan target dataDir).runPauses ps
        = some (e2, hooks) → 0 ≤ e2._pauseLevel) := by
  constructor
  · intro e h0
    have hz : e._pauseLevel = 0 := by
      simpa [Engine.isPaused] using h0
    simp [Engine.pauseEngine, hz]
  · intro ps e2 hooks h
    exact runPauses_nonneg ps _ e2 hooks (by simp [mkEngine]) h

/-- Closed witness for the nonnegative-depth claim: on a concrete fresh
engine a bare resume is rejected, and the state reached by one pause has
nonnegative depth. -/
theorem pause_depth_never_negative_witness :
    (mkEngine 1 2 3 4 5 "grim" 6).pauseEngine false = none ∧
    0 ≤ ({ mkEngine 1 2 3 4 5 "grim" 6 with _pauseLevel := 1 } : Engine)._pauseLevel :=
  ⟨(pause_depth_never_negative 1 2 3 4 5 "grim" 6).1 (mkEngine 1 2 3 4 5 "grim" 6) rfl,
   (pause_depth_never_negative 1 2 3 4 5 "grim" 6).2 [true]
     ({ mkEngine 1 2 3 4 5 "grim" 6 with _pauseLevel := 1 }) [true] (by decide)⟩

/-- C3: whenever `hasFeature(kSupportsSavingDuringRuntime)` returns false —
as the default implementation always does — `canSaveGameStateCurrently()`
returns false and `saveGameState` fails with the `UnsupportedFeature` error
for every slot and description, never succeeding. -/
theorem save_gated_by_feature (e : Engine)
    (h : e.hasFeature EngineFeature.kSupportsSavingDuringRuntime = false) :
    e.canSaveGameStateCurrently = false ∧
    ∀ (slot : Int) (desc : String),
      (e.saveGameState slot desc).2 = Error.kUnsupportedFeature ∧
      (e.saveGameState slot desc).2 ≠ Error.kNoError :=
  ⟨rfl, fun _ _ => ⟨rfl, by simp [Engine.saveGameState]⟩⟩

/-- Closed witness for the save-gating claim, on a concrete fresh engine,
slot 3 and a concrete description. -/
theorem save_gated_by_feature_witness :
    (mkEngine 1 2 3 4 5 "grim" 6).hasFeature EngineFeature.kSupportsSavingDuringRuntime
      = false ∧
    (mkEngine 1 2 3 4 5 "grim" 6).canSaveGameStateCurrently = false ∧
    ((mkEngine 1 2 3 4 5 "grim" 6).saveGameState 3 "my save").2
      = Error.kUnsupportedFeature := by
  have h := save_gated_by_feature (mkEngine 1 2 3 4 5 "grim" 6) rfl
  exact ⟨rfl, h.1, (h.2 3 "my save").1⟩

/-- C4: on a freshly constructed engine whose save/load hooks are not
overridden, `canLoadGameStateCurrently()` returns false and
`loadGameState(slot)` fails with the `UnsupportedFeature` error for every
slot (in particular slot 0); the default `loadGameState` never returns
`kNoError`. -/
theorem fresh_engine_load_unsupported (sys mixer timer eventMan saveFileMan : Nat)
    (target : String) (dataDir : Nat) :
    (mkEngine sys mixer timer eventMan saveFileMan target dataDir).canLoadGameStateCurrently
      = false ∧
    ∀ slot : Int,
      ((mkEngine sys mixer timer eventMan saveFileMan target dataDir).loadGameState slot).2
        = Error.kUnsupportedFeature ∧
      ((mkEngine sys mixer timer eventMan saveFileMan target dataDir).loadGameState slot).2
        ≠ Error.kNoError :=
  ⟨rfl, fun _ => ⟨rfl, by simp [Engine.loadGameState]⟩⟩

/-- Closed witness for the fresh-engine load claim at slot 0. -/
theorem fresh_engine_load_unsupported_witness :
    (mkEngine 1 2 3 4 5 "grim" 6).canLoadGameStateCurrently = false ∧
    ((mkEngine 1 2 3 4 5 "grim" 6).loadGameState 0).2 = Error.kUnsupportedFeature :=
  ⟨(fresh_engine_load_unsupported 1 2 3 4 5 "grim" 6).1,
   ((fresh_engine_load_unsupported 1 2 3 4 5 "grim" 6).2 0).1⟩

/-- C5: the default `hasFeature` returns false for every flag of the
enumerated set, and it is pure: it always returns a value (it is total) and
repeated calls with the same flag on the same engine agree. -/
theorem hasFeature_default_false (e : Engine) :
    (∀ f : EngineFeature, e.hasFeature f = false) ∧
    e.hasFeature EngineFeature.kSupportsSubtitleOptions = false ∧
    e.hasFeature EngineFeature.kSupportsRTL = false ∧
    e.hasFeature EngineFeature.kSupportsLoadingDuringRuntime = false ∧
    e.hasFeature EngineFeature.kSupportsSavingDuringRuntime = false ∧
    (∀ f : EngineFeature, e.hasFeature f = e.hasFeature f) :=
  ⟨fun _ => rfl, rfl, rfl, rfl, rfl, fun _ => rfl⟩

/-- Closed witness for the default-hasFeature claim on a concrete engine
and flag. -/
theorem hasFeature_default_false_witness :
    (mkEngine 1 2 3 4 5 "grim" 6).hasFeature EngineFeature.kSupportsRTL = false :=
  (hasFeature_default_false (mkEngine 1 2 3 4 5 "grim" 6)).2.2.1

/-- C6: `shouldPerformAutoSave` is a pure function of the elapsed time
since `lastSaveTime` relative to the autosave interval (it returns no
engine state, so it performs no save): it returns true exactly when the
elapsed time exceeds the interval, it depends on the times only through
their difference, it returns true at `lastSaveTime = now - interval - 1`,
and false at `lastSaveTime = now`. -/
theorem shouldPerformAutoSave_pure (e : Engine) (now lastSaveTime interval : Int)
    (hi : 0 ≤ interval) :
    (e.shouldPerformAutoSave now lastSaveTime interval = true ↔
      interval < now - lastSaveTime) ∧
    (∀ (e2 : Engine) (now2 last2 : Int), now - lastSaveTime = now2 - last2 →
      e.shouldPerformAutoSave now lastSaveTime interval
        = e2.shouldPerformAutoSave now2 last2 interval) ∧
    e.shouldPerformAutoSave now (now - interval - 1) interval = true ∧
    e.shouldPerformAutoSave now now interval = false := by
  refine ⟨?_, ?_, ?_, ?_⟩
  · simp [Engine.shouldPerformAutoSave]
  · intro e2 now2 last2 hdiff
    simp [Engine.shouldPerformAutoSave, hdiff]
  · simp [Engine.shouldPerformAutoSave]
    omega
  · simp [Engine.shouldPerformAutoSave]
    omega

/-- Closed witness for the autosave claim at a concrete clock value 1000
and interval 300. -/
theorem shouldPerformAutoSave_pure_witness :
    (0 : Int) ≤ 300 ∧
    (mkEngine 1 2 3 4 5 "grim" 6).shouldPerformAutoSave 1000 (1000 - 300 - 1) 300 = true ∧
    (mkEngine 1 2 3 4 5 "grim" 6).shouldPerformAutoSave 1000 1000 300 = false := by
  have h := shouldPerformAutoSave_pure (mkEngine 1 2 3 4 5 "grim" 6) 1000 699 300 (by decide)
  exact ⟨by decide, h.2.2.1, h.2.2.2⟩

/-- C7: `quitGame` only appends the quit event to the shared event stream;
it terminates (it is a total function), it is callable in any pause state
(no precondition), and it leaves the engine — in particular its pause depth
and hence `isPaused()` — unchanged. -/
theorem quitGame_only_signals (w : World) :
    (quitGame w).eventQueue = w.eventQueue ++ [GameEvent.eventQuit] ∧
    (quitGame w).engine = w.engine ∧
    (quitGame w).engine._pauseLevel = w.engine._pauseLevel ∧
    (quitGame w).engine.isPaused = w.engine.isPaused :=
  ⟨rfl, rfl, rfl, rfl⟩

/-- Closed witness for the quitGame claim on a concrete world with an empty
event queue. -/
theorem quitGame_only_signals_witness :
    (quitGame ⟨mkEngine 1 2 3 4 5 "grim" 6, []⟩).eventQueue = [GameEvent.eventQuit] ∧
    (quitGame ⟨mkEngine 1 2 3 4 5 "grim" 6, []⟩).engine = mkEngine 1 2 3 4 5 "grim" 6 := by
  have h := quitGame_only_signals ⟨mkEngine 1 2 3 4 5 "grim" 6, []⟩
  exact ⟨by simpa using h.1, h.2.1⟩

/-- `pauseEngineState` (a `pauseEngine` call viewed as a total state
transformer) changes at most the pause level. -/
theorem pauseEngineState_frame (e : Engine) (p : Bool) :
    (e.pauseEngineState p)._system = e._system ∧
    (e.pauseEngineState p)._mixer = e._mixer ∧
    (e.pauseEngineState p)._timer = e._timer ∧
    (e.pauseEngineState p)._eventMan = e._eventMan ∧
    (e.pauseEngineState p)._saveFileMan = e._saveFileMan ∧
    (e.pauseEngineState p)._targetName = e._targetName ∧
    (e.pauseEngineState p)._gameDataDir = e._gameDataDir := by
  cases p with
  | true =>
    have hstep : e.pauseEngine true =
        some ({ e with _pauseLevel := e._pauseLevel + 1 },
          if e._pauseLevel + 1 = 1 then [true] else []) := by
      simp [Engine.pauseEngine]
    simp [Engine.pauseEngineState, hstep]
  | false =>
    by_cases h0 : e._pauseLevel = 0
    · have hnone : e.pauseEngine false = none := by
        simp [Engine.pauseEngine, h0]
      simp [Engine.pauseEngineState, hnone]
    · have hstep : e.pauseEngine false =
          some ({ e with _pauseLevel := e._pauseLevel - 1 },
            if e._pauseLevel - 1 = 0 then [false] else []) := by
        simp [Engine.pauseEngine, h0]
      simp [Engine.pauseEngineState, hstep]

/-- C8: the target name and game-data directory reference are fixed at
construction: no lifecycle operation — `pauseEngine` (in either direction
and whether or not it fails fast), `syncSoundSettings`, `loadGameState`,
`saveGameState`, `quitGame` — changes them.  `shouldPerformAutoSave` and
the capability queries return plain values with no engine component, so
they cannot change any field. -/
theorem construction_fields_immutable (e : Engine) (p : Bool) (slot : Int)
    (desc : String) (w : World) :
    ((e.pauseEngineState p)._targetName = e._targetName ∧
      (e.pauseEngineState p)._gameDataDir = e._gameDataDir) ∧
    (e.syncSoundSettings._targetName = e._targetName ∧
      e.syncSoundSettings._gameDataDir = e._gameDataDir) ∧
    ((e.loadGameState slot).1._targetName = e._targetName ∧
      (e.loadGameState slot).1._gameDataDir = e._gameDataDir) ∧
    ((e.saveGameState slot desc).1._targetName = e._targetName ∧
      (e.saveGameState slot desc).1._gameDataDir = e._gameDataDir) ∧
    ((quitGame w).engine._targetName = w.engine._targetName ∧
      (quitGame w).engine._gameDataDir = w.engine._gameDataDir) :=
  ⟨⟨(pauseEngineState_frame e p).2.2.2.2.2.1, (pauseEngineState_frame e p).2.2.2.2.2.2⟩,
   ⟨rfl, rfl⟩, ⟨rfl, rfl⟩, ⟨rfl, rfl⟩, ⟨rfl, rfl⟩⟩

/-- Closed witness for the immutable-construction-fields claim: the target
name survives a concrete default load call. -/
theorem construction_fields_immutable_witness :
    ((mkEngine 1 2 3 4 5 "grim" 6).loadGameState 0).1._targetName
      = (mkEngine 1 2 3 4 5 "grim" 6)._targetName :=
  (construction_fields_immutable (mkEngine 1 2 3 4 5 "grim" 6) true 0 "d"
    ⟨mkEngine 1 2 3 4 5 "grim" 6, []⟩).2.2.1.1

/-- C9: a successful `pauseEngine` call modifies only the pause level among
the Engine base-class fields: the system, mixer, timer, event-manager and
save-file-manager handles, the target name and the game-data directory are
all identical before and after, and the base implementation of the
`pauseEngineIntern` hook is a no-op. -/
theorem pauseEngine_frame (e e2 : Engine) (p : Bool) (hk : List Bool)
    (h : e.pauseEngine p = some (e2, hk)) :
    e2._system = e._system ∧ e2._mixer = e._mixer ∧ e2._timer = e._timer ∧
    e2._eventMan = e._eventMan ∧ e2._saveFileMan = e._saveFileMan ∧
    e2._targetName = e._targetName ∧ e2._gameDataDir = e._gameDataDir ∧
    (∀ (a : Engine) (b : Bool), a.pauseEngineIntern b = a) := by
  have hch := (pauseEngine_some e e2 p hk h).1
  rw [hch]
  exact ⟨rfl, rfl, rfl, rfl, rfl, rfl, rfl, fun _ _ => rfl⟩

/-- Closed witness for the pauseEngine frame claim: one concrete pause call
preserves the target name. -/
theorem pauseEngine_frame_witness :
    ({ mkEngine 1 2 3 4 5 "grim" 6 with _pauseLevel := 1 } : Engine)._targetName
      = (mkEngine 1 2 3 4 5 "grim" 6)._targetName :=
  (pauseEngine_frame (mkEngine 1 2 3 4 5 "grim" 6)
    ({ mkEngine 1 2 3 4 5 "grim" 6 with _pauseLevel := 1 }) true [true]
    (by decide)).2.2.2.2.2.1

/-- C10: the default `hasFeature` is independent of both the engine state
and the flag argument: any two calls, on any two engine states and any two
flags, return the same value; being a const query returning a plain Bool,
it has no engine-state output to modify. -/
theorem hasFeature_noninterference (e1 e2 : Engine) (f1 f2 : EngineFeature) :
    e1.hasFeature f1 = e2.hasFeature f2 :=
  rfl

/-- Closed witness for the hasFeature noninterference claim at two
concrete, differing engines and flags. -/
theorem hasFeature_noninterference_witness :
    (mkEngine 1 2 3 4 5 "grim" 6).hasFeature EngineFeature.kSupportsRTL
      = (mkEngine 7 8 9 10 11 "monkey" 12).hasFeature
          EngineFeature.kSupportsSavingDuringRuntime :=
  hasFeature_noninterference (mkEngine 1 2 3 4 5 "grim" 6)
    (mkEngine 7 8 9 10 11 "monkey" 12)
    EngineFeature.kSupportsRTL EngineFeature.kSupportsSavingDuringRuntime

end ResidualVM
